import Mathlib

/-!
Verification development for the model residency cache and lifecycle manager of
the TTS-Audio-Suite repository (`src/utils/models/comfyui_model_wrapper.py`).

The Python source is shallowly embedded: cache keys are strings modelled as
`List Char`; the single Python dict `_model_cache` (which holds both active
entries and quarantined "shadow" entries under keys prefixed `_shadow_`) is
modelled as an association list with Python-dict semantics (lookup finds the
first match, insertion updates in place or appends, deletion removes the
entry); mutable wrapper objects are modelled by value with a `uid` recording
object identity; the process-wide invalidation flag (set from the wall clock
by `_clear_node_engine_caches`) is modelled by a `flag`/`now` pair of naturals
with the wall clock assumed strictly increasing between samples; Python
exceptions raised by the wrapped model's duck-typed capabilities (`.to(...)`,
`.parameters()`) are modelled by boolean fields on the instance, and functions
of the source that let such exceptions propagate return `Except Unit _`.
-/

/-- Cache keys: Python strings, as lists of characters. -/
abbrev Key : Type := List Char

/-- The shadow-namespace marker used by `remove_model` / `load_model`:
the characters of the Python literal used in `f"_shadow_{model_key}"`. -/
def shadowMark : Key := "_shadow_".data

/-- `shadowKey k` is the quarantine key `f"_shadow_{model_key}"` for `k`. -/
def shadowKey (k : Key) : Key := shadowMark ++ k

/-- A key lies in the quarantine namespace when it carries the shadow marker. -/
def isShadowKey (k : Key) : Bool := shadowMark.isPrefixOf k

/-- One parameter buffer of a torch module: `(nelement, element_size)`. -/
abbrev ParamBuf : Type := Nat × Nat

/-- A sub-component found in the wrapped model's `__dict__`, as far as the
duck-typed probes of the source observe it: whether it has `.to` and
`.parameters`, whether those calls raise, and its parameter buffers. -/
structure Comp where
  hasTo : Bool
  toRaises : Bool
  hasParams : Bool
  paramsRaise : Bool
  params : List ParamBuf
deriving DecidableEq, Repr

/-- The wrapped model instance, as observed by the source's duck-typed probes:
`iid` is the Python object identity; `hasTo`/`toRaises` describe the
whole-object `.to(device)` capability; `hasParams`/`paramsRaise`/`params`
describe `.parameters()`; `hasDict`/`comps` describe `__dict__` and its
movable sub-components; `graphsFlag` is `engine.cuda_graphs_initialized`
when the `hasattr` chain of the source finds it (`none` otherwise). -/
structure MInst where
  iid : Nat
  hasTo : Bool
  toRaises : Bool
  hasParams : Bool
  paramsRaise : Bool
  params : List ParamBuf
  hasDict : Bool
  comps : List Comp
  graphsFlag : Option Bool
deriving DecidableEq, Repr

/-- `ComfyUIModelWrapper._estimate_model_memory` (static): sums
`param.nelement() * param.element_size()` over `model.parameters()`;
returns 0 when the instance has no `parameters` attribute; an exception
raised by the iteration propagates (there is no handler in the source). -/
def estimate_model_memory (m : MInst) : Except Unit Nat :=
  if ¬ m.hasParams then .ok 0
  else if m.paramsRaise then .error ()
  else .ok ((m.params.map fun p => p.1 * p.2).sum)

/-- The same per-component estimate applied to a `__dict__` sub-component. -/
def estimateComp (c : Comp) : Except Unit Nat :=
  if ¬ c.hasParams then .ok 0
  else if c.paramsRaise then .error ()
  else .ok ((c.params.map fun p => p.1 * p.2).sum)

/-- Accumulates `calculate_model_memory`'s loop over `model.__dict__.values()`:
components exposing `parameters` contribute their estimate; a raising
estimate propagates out of the loop. -/
def sumCompMemory : List Comp → Except Unit Nat
  | [] => .ok 0
  | c :: rest =>
    if c.hasParams then
      match estimateComp c with
      | .error e => .error e
      | .ok n =>
        match sumCompMemory rest with
        | .error e => .error e
        | .ok s => .ok (n + s)
    else sumCompMemory rest

/-- `ComfyUIModelWrapper.calculate_model_memory` (static): a PyTorch-like
instance is estimated directly; a composite is the sum over its `__dict__`
components that expose `parameters`; an opaque instance gets the fixed
1 GiB default. Exceptions raised by the introspection calls propagate
(the source has no try/except here). -/
def calculate_model_memory (m : MInst) : Except Unit Nat :=
  if m.hasParams then estimate_model_memory m
  else if m.hasDict then sumCompMemory m.comps
  else .ok (1024 * 1024 * 1024)

/-- `calculate_model_memory` as invoked by the manager on the factory result,
which may be `None` (then both `hasattr` probes fail and the default applies). -/
def calcMemOpt : Option MInst → Except Unit Nat
  | none => .ok (1024 * 1024 * 1024)
  | some m => calculate_model_memory m

/-- The `ComfyUIModelWrapper` object state, restricted to the fields the
source reads or writes on the lifecycle paths: `uid` is Python object
identity, `model` the wrapped instance (`None` possible), `mtype`/`engine`
come from `ModelInfo.model_type` / `ModelInfo.engine`, and
`currentDevice` / `memSize` / `isLoadedOnGpu` / `validForReuse` are
`current_device` / `_memory_size` / `_is_loaded_on_gpu` /
`_is_valid_for_reuse`. -/
structure Wrapper where
  uid : Nat
  model : Option MInst
  mtype : String
  engine : String
  currentDevice : String
  memSize : Nat
  isLoadedOnGpu : Bool
  validForReuse : Bool
deriving DecidableEq, Repr

/-- `ComfyUIModelWrapper.__init__`: records the metadata, sets
`current_device` to `model_info.device`, computes
`_is_loaded_on_gpu = current_device not in ['cpu', 'offload']`, and starts
with `_is_valid_for_reuse = True`. -/
def mkWrapper (uid : Nat) (m : Option MInst) (mt eng dev : String) (sz : Nat) : Wrapper :=
  { uid := uid
    model := m
    mtype := mt
    engine := eng
    currentDevice := dev
    memSize := sz
    isLoadedOnGpu := decide (¬ (dev = "cpu" ∨ dev = "offload"))
    validForReuse := true }

/-- `ComfyUIModelWrapper.loaded_size`: `_memory_size` when the model is
counted as on the GPU, else 0 (the `print` is I/O only; no field is read
or written besides the two shown). -/
def loaded_size (w : Wrapper) : Nat :=
  if w.isLoadedOnGpu then w.memSize else 0

/-- `ComfyUIModelWrapper.model_size`. -/
def model_size (w : Wrapper) : Nat := w.memSize

/-- Bytes freed that one `__dict__` component contributes inside
`partially_unload`'s composite branch: the component is visited when it has
both `.to` and `.parameters`; `attr_value.to('cpu')` and the subsequent
estimate run in one `try`, so a raise from either contributes nothing. -/
def compFreed (c : Comp) : Nat :=
  if c.hasTo ∧ c.hasParams then
    if c.toRaises ∨ c.paramsRaise then 0
    else (c.params.map fun p => p.1 * p.2).sum
  else 0

/-- `ComfyUIModelWrapper.partially_unload` (the source name carries an
infelicitous substring, hence the short Lean name): returns
`(freed_memory, updated wrapper)`. Not loaded, or a dead/absent model
reference, frees nothing. A model with `.to` is moved to `'cpu'`; on an
exception from the move the `except` branch still marks the wrapper
unloaded on `'cpu'` and reports `_memory_size` freed, identical to the
success branch. A composite moves each movable component; when anything
moved, the wrapper is marked unloaded. `_clear_cuda_graphs` only prints
and never mutates, and is therefore not represented. -/
def pUnload (w : Wrapper) (_dev : String) (_memToFree : Nat) : Nat × Wrapper :=
  if ¬ w.isLoadedOnGpu then (0, w)
  else
    match w.model with
    | none => (0, w)
    | some m =>
      if m.hasTo then
        (w.memSize, { w with currentDevice := "cpu", isLoadedOnGpu := false })
      else if m.hasDict then
        let freed := (m.comps.map compFreed).sum
        if freed > 0 then
          (freed, { w with currentDevice := "cpu", isLoadedOnGpu := false })
        else (freed, w)
      else (0, w)

/-- `ComfyUIModelWrapper.model_unload`: partial unload first when a bounded
request is below the loaded size, otherwise a full unload; returns whether
the request was satisfied together with the updated wrapper. -/
def model_unload (w : Wrapper) (memToFree : Option Nat) : Bool × Wrapper :=
  match memToFree with
  | some mtf =>
    if mtf < loaded_size w then
      let r := pUnload w "cpu" mtf
      (decide (mtf ≤ r.1), r.2)
    else
      let r := pUnload w "cpu" w.memSize
      (decide (0 < r.1), r.2)
  | none =>
    let r := pUnload w "cpu" w.memSize
    (decide (0 < r.1), r.2)

/-- `ComfyUIModelWrapper.model_load`: no-op when already loaded or the model
reference is gone; a model with `.to` is moved (an exception leaves every
field unchanged, the handler only prints); a composite moves components
best-effort and then unconditionally marks the wrapper loaded on the target. -/
def model_load (w : Wrapper) (dev : String) : Wrapper :=
  if w.isLoadedOnGpu then w
  else
    match w.model with
    | none => w
    | some m =>
      if m.hasTo then
        if m.toRaises then w
        else { w with currentDevice := dev, isLoadedOnGpu := true }
      else if m.hasDict then
        { w with currentDevice := dev, isLoadedOnGpu := true }
      else w

/-- First `is_clone` definition in the class body (lines 341-346): same
`model_type` and same `engine`.  In Python a later definition of the same
method name replaces it, so this version is dead code. -/
def is_clone_v1 (a b : Wrapper) : Bool :=
  a.mtype = b.mtype ∧ a.engine = b.engine

/-- Effective `is_clone` (second definition, lines 380-382): always `False`
("TTS models don't support cloning"); it shadows `is_clone_v1`. -/
def is_clone (_a _b : Wrapper) : Bool := false

/-- Wrapper-state part of `ComfyUIModelWrapper.detach`: a full partial unload
to `'cpu'` followed by `_is_valid_for_reuse = False`. The accompanying
global-flag bump (`_clear_node_engine_caches`) lives at the system level. -/
def detachW (w : Wrapper) : Wrapper :=
  { (pUnload w "cpu" w.memSize).2 with validForReuse := false }

/-- Resets `wrapper.model.engine.cuda_graphs_initialized` to `False` when the
`hasattr` chain finds it, as done on resurrection, in-place
reinitialization, and forced reload of a `higgs_audio` model. -/
def resetGraphs (w : Wrapper) : Wrapper :=
  { w with model := w.model.map fun m =>
      { m with graphsFlag := m.graphsFlag.map fun _ => false } }

/-- The manager's `_model_cache` dict, with Python-dict semantics: an
association list in insertion order. -/
abbrev Cache : Type := List (Key × Wrapper)

/-- Python `cache.get(k)` / `cache[k]`: the first (and, in states the
manager builds, only) entry under `k`. -/
def dlookup : Cache → Key → Option Wrapper
  | [], _ => none
  | p :: rest, k => if p.1 = k then some p.2 else dlookup rest k

/-- Python `cache[k] = v`: update the existing slot in place, preserving its
position, or append a new entry at the end. -/
def dinsert (k : Key) (v : Wrapper) : Cache → Cache
  | [] => [(k, v)]
  | p :: rest => if p.1 = k then (k, v) :: rest else p :: dinsert k v rest

/-- Python `cache.pop(k)`: drop the entry under `k`. -/
def dpop : Cache → Key → Cache
  | [], _ => []
  | p :: rest, k => if p.1 = k then dpop rest k else p :: dpop rest k

/-- `ComfyUITTSModelManager.remove_model`: returns
`(found, new cache, number of model_unload invocations)`.
A `higgs_audio` wrapper is moved from its key to the shadow key — never
unloaded; any other wrapper is popped and fully unloaded. ComfyUI-side
tracking removal is external to the cache and not represented. -/
def remove_model (c : Cache) (k : Key) : Bool × Cache × Nat :=
  match dlookup c k with
  | none => (false, c, 0)
  | some w =>
    if w.engine = "higgs_audio" then
      (true, dinsert (shadowKey k) w (dpop c k), 0)
    else
      (true, dpop c k, 1)

/-- Folds `remove_model` over a previously taken snapshot of keys, as both
`clear_cache` and the pre-creation memory-relief block of `load_model` do. -/
def removeKeys (c : Cache) : List Key → Cache
  | [] => c
  | k :: ks => removeKeys (remove_model c k).2.1 ks

/-- A `clear_cache` filter argument: `none` is Python `None`; the Python
truthiness test also lets an empty string through unfiltered. -/
def filterPass (f : Option String) (v : String) : Bool :=
  match f with
  | none => true
  | some x => x = "" ∨ v = x

/-- `ComfyUITTSModelManager.clear_cache`: snapshot every cache key (shadow
keys included) whose wrapper passes the optional `model_type` / `engine`
filters, then remove each via `remove_model`. -/
def clear_cache (c : Cache) (mtF engF : Option String) : Cache :=
  removeKeys c
    ((c.filter fun p => filterPass mtF p.2.mtype ∧ filterPass engF p.2.engine).map
      fun p => p.1)

/-- The aggregate record returned by `get_stats` (the
`comfyui_integration` field is environment-only and omitted). -/
structure Stats where
  totalModels : Nat
  totalMemoryMB : Nat
  byType : List (String × Nat)
  byEngine : List (String × Nat)
deriving DecidableEq, Repr

/-- `by_type[key] = by_type.get(key, 0) + 1` on a Python dict, preserving
first-insertion order. -/
def bumpCount (l : List (String × Nat)) (k : String) : List (String × Nat) :=
  if l.any fun p => p.1 = k then
    l.map fun p => if p.1 = k then (p.1, p.2 + 1) else p
  else l ++ [(k, 1)]

/-- `ComfyUITTSModelManager.get_stats`: iterates over every value of
`_model_cache` — shadow entries included — summing `loaded_size()` and
counting by `model_type` and by `engine`. -/
def get_stats (c : Cache) : Stats :=
  { totalModels := c.length
    totalMemoryMB := ((c.map fun p => loaded_size p.2).sum) / 1024 / 1024
    byType := c.foldl (fun l p => bumpCount l p.2.mtype) []
    byEngine := c.foldl (fun l p => bumpCount l p.2.engine) [] }

/-- Manager-level state: the cache dict, a fresh-object counter standing for
Python object identity, the process-wide `_global_cache_invalidation_flag`,
the wall clock it samples (assumed strictly increasing between samples),
and whether the optional ComfyUI integration is importable. -/
structure Mgr where
  cache : Cache
  nextId : Nat
  flag : Nat
  now : Nat
  comfy : Bool
deriving Repr

/-- Keys selected by `load_model`'s pre-creation relief block: cached
wrappers of a different engine but the same `"tts"` model type. -/
def reliefKeys (c : Cache) (eng : String) : List Key :=
  (c.filter fun p => ¬ p.2.engine = eng ∧ p.2.mtype = "tts").map fun p => p.1

/-- The pre-creation memory-management block of `load_model`: only with the
ComfyUI integration importable and a non-CPU target, and only for a
`"tts"`-type request with a nonempty engine, evict same-kind entries of
other engines. The host `free_memory` call has no cache effect. -/
def creationPrelude (s : Mgr) (mt eng dev : String) : Mgr :=
  if s.comfy ∧ ¬ dev = "cpu" ∧ mt = "tts" ∧ ¬ eng = "" then
    { s with cache := removeKeys s.cache (reliefKeys s.cache eng) }
  else s

/-- Result of `load_model`: the returned wrapper, the post-call manager
state, and how often the factory was invoked — or, when
`calculate_model_memory` raises on the factory's result, the propagated
error together with the partially mutated state. -/
inductive LoadRes where
  | ok (w : Wrapper) (s : Mgr) (nfac : Nat)
  | err (s : Mgr) (nfac : Nat)
deriving Repr

/-- The resurrection branch of `load_model`: pop the shadow entry, reset the
CUDA-graph flag when exposed, restore under the active key, and mark the
wrapper valid again (the Python code mutates the one shared object; here
the updated value is both stored and returned). No factory call. -/
def resurrect (s : Mgr) (k : Key) (w : Wrapper) : LoadRes :=
  let w1 := { resetGraphs w with validForReuse := true }
  .ok w1 { s with cache := dinsert k w1 (dpop s.cache (shadowKey k)) } 0

/-- The in-place reinitialization applied to a cached `higgs_audio` wrapper
on an invalid hit or a forced reload: reset the graph flag, `model_load`
back to the device, mark valid. The `try` around it can only fail via the
duck-typed probes, all of which are total here, so it always succeeds. -/
def reinitInPlace (s : Mgr) (k : Key) (w : Wrapper) (dev : String) : LoadRes :=
  let w1 := { model_load (resetGraphs w) dev with validForReuse := true }
  .ok w1 { s with cache := dinsert k w1 s.cache } 0

/-- The creation tail of `load_model`: run the memory-relief block, invoke
the factory once on a fresh object id, estimate the footprint (an
estimator exception propagates after the factory call, before any cache
insertion), wrap, and insert under the key. ComfyUI registration is
external and has no cache effect. -/
def createModel (s : Mgr) (fac : Nat → Option MInst) (k : Key)
    (mt eng dev : String) : LoadRes :=
  let s1 := creationPrelude s mt eng dev
  let m := fac s1.nextId
  let s2 := { s1 with nextId := s1.nextId + 1 }
  match calcMemOpt m with
  | .error _ => .err s2 1
  | .ok sz =>
    let w := mkWrapper s1.nextId m mt eng dev sz
    .ok w { s2 with cache := dinsert k w s2.cache } 1

/-- The body of `load_model` after the resurrection check: cache hit
handling (valid reuse with device correction; invalid `higgs_audio`
reinitialized in place; other invalid entries removed), forced reload
(in place for `higgs_audio`, else removal), and fall-through to creation. -/
def loadMain (s : Mgr) (fac : Nat → Option MInst) (k : Key)
    (mt eng dev : String) (force : Bool) : LoadRes :=
  match dlookup s.cache k with
  | some w =>
    if force = false then
      if w.validForReuse then
        if ¬ w.currentDevice = dev ∧ ¬ dev = "auto" then
          let w1 := model_load w dev
          .ok w1 { s with cache := dinsert k w1 s.cache } 0
        else .ok w s 0
      else if eng = "higgs_audio" then reinitInPlace s k w dev
      else createModel { s with cache := (remove_model s.cache k).2.1 } fac k mt eng dev
    else
      if eng = "higgs_audio" then reinitInPlace s k w dev
      else createModel { s with cache := (remove_model s.cache k).2.1 } fac k mt eng dev
  | none => createModel s fac k mt eng dev

/-- `ComfyUITTSModelManager.load_model`: the resurrection check for a
`higgs_audio` request with a shadow entry runs first; everything else is
`loadMain`. -/
def load_model (s : Mgr) (fac : Nat → Option MInst) (k : Key)
    (mt eng dev : String) (force : Bool) : LoadRes :=
  if eng = "higgs_audio" then
    match dlookup s.cache (shadowKey k) with
    | some w => resurrect s k w
    | none => loadMain s fac k mt eng dev force
  else loadMain s fac k mt eng dev force

/-- One externally triggerable operation on the running system: the three
manager entry points, plus the wrapper methods the ComfyUI host may call
on a cached handle (`detachKey`), on a handle it still references outside
the cache (`detachExt`), and the remaining host-facing wrapper methods. -/
inductive SysOp where
  | load (k : Key) (mt eng dev : String) (fac : Nat → Option MInst) (force : Bool)
  | remove (k : Key)
  | clear (mtF engF : Option String)
  | detachKey (k : Key)
  | detachExt
  | hostPUnload (k : Key) (dev : String) (mem : Nat)
  | hostLoad (k : Key) (dev : String)
  | hostUnload (k : Key) (mem : Option Nat)

/-- Applies an in-place mutation of the wrapper cached under `k`, as a host
call on that handle does; absent keys mean the host holds no such handle
and nothing happens. -/
def updateAt (s : Mgr) (k : Key) (f : Wrapper → Wrapper) : Mgr :=
  match dlookup s.cache k with
  | some w => { s with cache := dinsert k (f w) s.cache }
  | none => s

/-- The system transition function. `load` takes whichever state `load_model`
leaves behind, also on a propagated estimator error. A `detach` samples the
strictly increased wall clock into `_global_cache_invalidation_flag`. -/
def sysStep (s : Mgr) : SysOp → Mgr
  | .load k mt eng dev fac force =>
    match load_model s fac k mt eng dev force with
    | .ok _ s1 _ => s1
    | .err s1 _ => s1
  | .remove k => { s with cache := (remove_model s.cache k).2.1 }
  | .clear mtF engF => { s with cache := clear_cache s.cache mtF engF }
  | .detachKey k =>
    match dlookup s.cache k with
    | some w =>
      { s with cache := dinsert k (detachW w) s.cache, flag := s.now, now := s.now + 1 }
    | none => s
  | .detachExt => { s with flag := s.now, now := s.now + 1 }
  | .hostPUnload k dev mem => updateAt s k fun w => (pUnload w dev mem).2
  | .hostLoad k dev => updateAt s k fun w => model_load w dev
  | .hostUnload k mem => updateAt s k fun w => (model_unload w mem).2

/-- Runs a sequence of system operations. -/
def runOps (s : Mgr) : List SysOp → Mgr
  | [] => s
  | op :: ops => runOps (sysStep s op) ops

/-- The process-start state: empty cache, baseline flag `0.0`, a wall clock
already past the baseline, and a given ComfyUI availability. -/
def initMgr (b : Bool) : Mgr :=
  { cache := [], nextId := 0, flag := 0, now := 1, comfy := b }

/-- A well-behaved `higgs_audio`-style instance used by concrete runs: a
whole-object `.to` that succeeds, no parameter introspection (so the 1 GiB
default footprint applies), and an exposed CUDA-graph flag set to `True`. -/
def higgsInst (n : Nat) : MInst :=
  { iid := n, hasTo := true, toRaises := false, hasParams := false,
    paramsRaise := false, params := [], hasDict := false, comps := [],
    graphsFlag := some true }

/-- The factory used by concrete runs: builds `higgsInst` on the fresh id. -/
def higgsFac (n : Nat) : Option MInst := some (higgsInst n)

/-- The key `"a"` of the concrete runs. -/
def keyA : Key := "a".data

/-- A `load_model` call for key `"a"`, engine `higgs_audio`, type `tts`,
device `cuda`, no forced reload. -/
def loadA : SysOp := .load keyA "tts" "higgs_audio" "cuda" higgsFac false

/-- Concrete run: load `"a"`, quarantine it, `clear_cache()` (which re-removes
the shadow entry, pushing it to a doubly shadowed key), then load and
quarantine `"a"` again. Every operation uses the one key `"a"` with the one
engine `"higgs_audio"`. -/
def trace5 : List SysOp :=
  [loadA, .remove keyA, .clear none none, loadA, .remove keyA]

/-- The state reached by `trace5` from a ComfyUI-less process start. -/
def state5 : Mgr := runOps (initMgr false) trace5

/-- `trace5` followed by one further `remove_model` call on the shadow key:
its wrapper is itself `higgs_audio`, so it is shadow-inserted onto the
doubly shadowed key, overwriting the instance quarantined there. -/
def trace6 : List SysOp := trace5 ++ [.remove (shadowKey keyA)]

/-- The state reached by `trace6`. -/
def state6 : Mgr := runOps (initMgr false) trace6

/-- The Python object ids of all instances held anywhere in the manager's
storage (active and shadow entries alike). -/
def storedIds (c : Cache) : List Nat :=
  c.filterMap fun p => p.2.model.map fun m => m.iid

/-- Concrete two-step run exhibiting a quarantined handle in `get_stats`:
load `"a"` on `cuda` (Resident, 1 GiB footprint), then `remove_model` it
(moved to the shadow key, never unloaded). -/
def stateStats : Mgr := runOps (initMgr false) [loadA, .remove keyA]

/-- Strips shadow markers off a key until an unmarked base remains: the user
key a (possibly repeatedly) quarantined entry descends from. -/
def keyBase (k : Key) : Key :=
  if isShadowKey k then keyBase (k.drop shadowMark.length) else k
termination_by k.length
decreasing_by
  simp only [isShadowKey] at *
  have hpre : shadowMark <+: k := by
    exact List.isPrefixOf_iff_prefix.mp (by assumption)
  have hlen : shadowMark.length ≤ k.length := hpre.length_le
  have h8 : shadowMark.length = 8 := by decide
  simp only [List.length_drop]
  omega

/-- The cache invariant behind quarantine disjointness, for a fixed
per-key engine assignment `E`: every stored wrapper carries the engine of
its base key, shadow entries only ever hold `higgs_audio` wrappers, and no
unshadowed key is present in both namespaces. -/
def CacheOK (E : Key → String) (c : Cache) : Prop :=
  (∀ p ∈ c, p.2.engine = E (keyBase p.1) ∧
    (isShadowKey p.1 = true → p.2.engine = "higgs_audio")) ∧
  (∀ k : Key, isShadowKey k = false →
    ¬ ((dlookup c k).isSome ∧ (dlookup c (shadowKey k)).isSome))

/-- The usage discipline the disjointness claim assumes: `load_model` is
called only on unshadowed keys, each with its one fixed engine string. -/
def OpOK (E : Key → String) : SysOp → Prop
  | .load k _ eng _ _ _ => isShadowKey k = false ∧ eng = E k
  | _ => True

/-- One mutation some code path of the source applies to a live wrapper:
the host-facing methods plus the validity and graph-flag writes the
manager performs on cached handles. -/
inductive WOp where
  | punl (dev : String) (mem : Nat)
  | mload (dev : String)
  | munl (mem : Option Nat)
  | det
  | setValid (b : Bool)
  | regraph

/-- Applies one wrapper mutation. -/
def applyW (w : Wrapper) : WOp → Wrapper
  | .punl dev mem => (pUnload w dev mem).2
  | .mload dev => model_load w dev
  | .munl mem => (model_unload w mem).2
  | .det => detachW w
  | .setValid b => { w with validForReuse := b }
  | .regraph => resetGraphs w

/-- Applies a sequence of wrapper mutations. -/
def applyWOps (w : Wrapper) : List WOp → Wrapper
  | [] => w
  | op :: ops => applyWOps (applyW w op) ops

/-- An instance whose `parameters()` call itself raises: `hasattr` sees the
attribute, the iteration then fails with no handler in the estimator. -/
def raisingInst : MInst :=
  { iid := 7, hasTo := false, toRaises := false, hasParams := true,
    paramsRaise := true, params := [], hasDict := false, comps := [],
    graphsFlag := none }

/-- An opaque instance: no `parameters`, no `__dict__`. -/
def bareInst : MInst :=
  { iid := 8, hasTo := false, toRaises := false, hasParams := false,
    paramsRaise := false, params := [], hasDict := false, comps := [],
    graphsFlag := none }

/-- An instance whose whole-object `.to(device)` raises. -/
def toRaisingInst : MInst :=
  { iid := 9, hasTo := true, toRaises := true, hasParams := false,
    paramsRaise := false, params := [], hasDict := false, comps := [],
    graphsFlag := none }

/-- A Resident wrapper around `toRaisingInst`, as the eviction claims use. -/
def wRaise : Wrapper := mkWrapper 3 (some toRaisingInst) "tts" "chatterbox" "cuda" 4096

/-- A sample `chatterbox`/`tts` wrapper, compared with itself by `is_clone`. -/
def wClone : Wrapper := mkWrapper 4 none "tts" "chatterbox" "cuda" 100

/-- The state after a single `load_model` of key `"a"` (engine
`higgs_audio`): one active Resident entry. -/
def state1 : Mgr := runOps (initMgr false) [loadA]

/-- The wrapper `state1` holds under `"a"`. -/
def wA : Wrapper := mkWrapper 0 (higgsFac 0) "tts" "higgs_audio" "cuda" 1073741824

/-! ### Dictionary and shadow-key lemmas -/

theorem dlookup_dinsert (k : Key) (v : Wrapper) (c : Cache) (x : Key) :
    dlookup (dinsert k v c) x = if k = x then some v else dlookup c x := by
  induction c with
  | nil => simp [dinsert, dlookup]
  | cons p rest ih =>
    obtain ⟨a, w⟩ := p
    by_cases ha : a = k
    · subst ha
      by_cases hx : a = x
      · subst hx
        simp [dinsert, dlookup]
      · simp [dinsert, dlookup, hx]
    · by_cases hx : a = x
      · subst hx
        have hk : ¬ k = a := fun h => ha h.symm
        simp [dinsert, dlookup, ha, hk]
      · simp [dinsert, dlookup, ha, hx, ih]

theorem dlookup_dpop (c : Cache) (k x : Key) :
    dlookup (dpop c k) x = if k = x then none else dlookup c x := by
  induction c with
  | nil => simp [dpop, dlookup]
  | cons p rest ih =>
    obtain ⟨a, w⟩ := p
    by_cases ha : a = k
    · subst ha
      by_cases hx : a = x
      · subst hx
        simp [dpop, dlookup, ih]
      · simp [dpop, dlookup, hx, ih]
    · by_cases hx : a = x
      · subst hx
        have hk : ¬ k = a := fun h => ha h.symm
        simp [dpop, dlookup, ha, hk]
      · simp [dpop, dlookup, ha, hx, ih]

theorem mem_dinsert {p : Key × Wrapper} {k : Key} {v : Wrapper} {c : Cache}
    (h : p ∈ dinsert k v c) : p = (k, v) ∨ p ∈ c := by
  induction c with
  | nil =>
    simp [dinsert] at h
    exact Or.inl h
  | cons q rest ih =>
    by_cases hq : q.1 = k
    · simp [dinsert, hq] at h
      rcases h with h | h
      · exact Or.inl h
      · exact Or.inr (List.mem_cons_of_mem q h)
    · simp [dinsert, hq] at h
      rcases h with h | h
      · exact Or.inr (by simp [h])
      · rcases ih h with h1 | h1
        · exact Or.inl h1
        · exact Or.inr (List.mem_cons_of_mem q h1)

theorem mem_dpop {p : Key × Wrapper} {c : Cache} {k : Key}
    (h : p ∈ dpop c k) : p ∈ c := by
  induction c with
  | nil =>
    simp [dpop] at h
  | cons q rest ih =>
    by_cases hq : q.1 = k
    · simp [dpop, hq] at h
      exact List.mem_cons_of_mem q (ih h)
    · simp [dpop, hq] at h
      rcases h with h | h
      · simp [h]
      · exact List.mem_cons_of_mem q (ih h)

theorem shadowKey_length (k : Key) : (shadowKey k).length = 8 + k.length := by
  simp [shadowKey, shadowMark]
  omega

theorem shadowKey_ne (k : Key) : ¬ shadowKey k = k := by
  intro h
  have := shadowKey_length k
  rw [h] at this
  omega

theorem shadowKey_inj {a b : Key} (h : shadowKey a = shadowKey b) : a = b :=
  List.append_cancel_left h

theorem isShadowKey_shadowKey (k : Key) : isShadowKey (shadowKey k) = true := by
  simp [isShadowKey, shadowKey, List.isPrefixOf_iff_prefix]

theorem not_shadow_ne_shadowKey {k x : Key} (h : isShadowKey k = false) :
    ¬ k = shadowKey x := by
  intro he
  rw [he, isShadowKey_shadowKey] at h
  cases h

theorem keyBase_shadowKey (k : Key) : keyBase (shadowKey k) = keyBase k := by
  rw [keyBase, if_pos (isShadowKey_shadowKey k)]
  rw [shadowKey, List.drop_left]

theorem keyBase_of_not_shadow {k : Key} (h : isShadowKey k = false) :
    keyBase k = k := by
  rw [keyBase, if_neg (by simp [h])]

/-! ### Wrapper field-preservation lemmas -/

theorem pUnload_fields (w : Wrapper) (dev : String) (mem : Nat) :
    ((pUnload w dev mem).2).uid = w.uid ∧
    ((pUnload w dev mem).2).model = w.model ∧
    ((pUnload w dev mem).2).mtype = w.mtype ∧
    ((pUnload w dev mem).2).engine = w.engine ∧
    ((pUnload w dev mem).2).memSize = w.memSize ∧
    ((pUnload w dev mem).2).validForReuse = w.validForReuse := by
  unfold pUnload
  by_cases hl : w.isLoadedOnGpu = true
  · cases hm : w.model with
    | none => simp [hl, hm]
    | some m =>
      by_cases ht : m.hasTo = true
      · simp [hl, hm, ht]
      · by_cases hd : m.hasDict = true
        · by_cases h0 : 0 < (List.map compFreed m.comps).sum <;>
            simp [hl, hm, ht, hd, h0]
        · simp [hl, hm, ht, hd]
  · simp [hl]

theorem model_load_fields (w : Wrapper) (dev : String) :
    (model_load w dev).uid = w.uid ∧
    (model_load w dev).model = w.model ∧
    (model_load w dev).mtype = w.mtype ∧
    (model_load w dev).engine = w.engine ∧
    (model_load w dev).memSize = w.memSize ∧
    (model_load w dev).validForReuse = w.validForReuse := by
  unfold model_load
  repeat' split
  all_goals simp

theorem model_unload_fields (w : Wrapper) (mem : Option Nat) :
    ((model_unload w mem).2).uid = w.uid ∧
    ((model_unload w mem).2).model = w.model ∧
    ((model_unload w mem).2).mtype = w.mtype ∧
    ((model_unload w mem).2).engine = w.engine ∧
    ((model_unload w mem).2).memSize = w.memSize ∧
    ((model_unload w mem).2).validForReuse = w.validForReuse := by
  unfold model_unload
  repeat' split
  all_goals exact pUnload_fields _ _ _

theorem detachW_fields (w : Wrapper) :
    (detachW w).uid = w.uid ∧
    (detachW w).model = w.model ∧
    (detachW w).mtype = w.mtype ∧
    (detachW w).engine = w.engine ∧
    (detachW w).memSize = w.memSize := by
  have h := pUnload_fields w "cpu" w.memSize
  unfold detachW
  exact ⟨h.1, h.2.1, h.2.2.1, h.2.2.2.1, h.2.2.2.2.1⟩

theorem resetGraphs_fields (w : Wrapper) :
    (resetGraphs w).uid = w.uid ∧
    (resetGraphs w).mtype = w.mtype ∧
    (resetGraphs w).engine = w.engine ∧
    (resetGraphs w).memSize = w.memSize ∧
    (resetGraphs w).validForReuse = w.validForReuse ∧
    (resetGraphs w).model.map MInst.iid = w.model.map MInst.iid := by
  unfold resetGraphs
  refine ⟨rfl, rfl, rfl, rfl, rfl, ?_⟩
  cases w.model <;> simp

theorem applyW_memSize (w : Wrapper) (op : WOp) : (applyW w op).memSize = w.memSize := by
  cases op with
  | punl dev mem => exact (pUnload_fields w dev mem).2.2.2.2.1
  | mload dev => exact (model_load_fields w dev).2.2.2.2.1
  | munl mem => exact (model_unload_fields w mem).2.2.2.2.1
  | det => exact (detachW_fields w).2.2.2.2
  | setValid b => rfl
  | regraph => exact (resetGraphs_fields w).2.2.2.1

theorem applyWOps_memSize (w : Wrapper) (ops : List WOp) :
    (applyWOps w ops).memSize = w.memSize := by
  induction ops generalizing w with
  | nil => rfl
  | cons op ops ih => rw [applyWOps, ih, applyW_memSize]

/-- C4: for every handle reachable from a freshly constructed wrapper (any
device argument) by any sequence of the source's wrapper mutations,
`loaded_size()` is the construction-time `_memory_size` exactly when
`_is_loaded_on_gpu` (the Resident state) holds and `0` otherwise, and
`_memory_size` itself never changes after `__init__` (no operation of the
source assigns it).  `loaded_size` is embedded as a pure function of the
wrapper because the source method only reads the two fields shown. -/
theorem C4_loaded_size_accounting (uid : Nat) (m : Option MInst)
    (mt eng dev : String) (sz : Nat) (ops : List WOp) :
    (applyWOps (mkWrapper uid m mt eng dev sz) ops).memSize = sz ∧
    loaded_size (applyWOps (mkWrapper uid m mt eng dev sz) ops) =
      (if (applyWOps (mkWrapper uid m mt eng dev sz) ops).isLoadedOnGpu then sz
       else 0) := by
  have hm : (applyWOps (mkWrapper uid m mt eng dev sz) ops).memSize = sz := by
    rw [applyWOps_memSize]
    rfl
  exact ⟨hm, by rw [loaded_size, hm]⟩

/-- C5: when a Resident handle wraps an instance with a whole-object `.to`
transfer that raises, `partially_unload('cpu', n)` swallows the error,
still marks the handle Evicted (`_is_loaded_on_gpu = False`) with
`current_device = 'cpu'`, and returns `_memory_size` as bytes freed — and
the freed count, device and residency agree exactly with the run on the
identical wrapper whose transfer succeeds. -/
theorem C5_transfer_failure_conservative (w : Wrapper) (m : MInst) (n : Nat)
    (h1 : w.model = some m) (h2 : m.hasTo = true) (h3 : m.toRaises = true)
    (h4 : w.isLoadedOnGpu = true) :
    pUnload w "cpu" n =
      (w.memSize, { w with currentDevice := "cpu", isLoadedOnGpu := false }) ∧
    (pUnload w "cpu" n).1 =
      (pUnload { w with model := some { m with toRaises := false } } "cpu" n).1 ∧
    (pUnload w "cpu" n).2.currentDevice =
      (pUnload { w with model := some { m with toRaises := false } } "cpu" n).2.currentDevice ∧
    (pUnload w "cpu" n).2.isLoadedOnGpu =
      (pUnload { w with model := some { m with toRaises := false } } "cpu" n).2.isLoadedOnGpu := by
  refine ⟨?_, ?_, ?_, ?_⟩ <;> simp [pUnload, h1, h2, h3, h4]

/-- C5 witness: the concrete Resident wrapper `wRaise` around an instance
whose `.to` raises. -/
theorem C5_transfer_failure_conservative_witness :
    wRaise.model = some toRaisingInst ∧ toRaisingInst.hasTo = true ∧
    toRaisingInst.toRaises = true ∧ wRaise.isLoadedOnGpu = true ∧
    pUnload wRaise "cpu" 64 =
      (wRaise.memSize,
        { wRaise with currentDevice := "cpu", isLoadedOnGpu := false }) :=
  ⟨rfl, rfl, rfl, rfl,
    (C5_transfer_failure_conservative wRaise toRaisingInst 64 rfl rfl rfl rfl).1⟩

/-- C10 counterexample: the claim asserts `is_clone` is true for two handles
of the same engine and kind, but the second (effective) definition of
`is_clone` in the class body returns `False` unconditionally — here on a
handle compared with itself, same `engine` and same `model_type`. -/
theorem C10_counterexample :
    is_clone wClone wClone = false ∧ is_clone_v1 wClone wClone = true := by
  constructor <;> rfl

/-- C10 amended: the effective `is_clone` (the second definition, which in
Python shadows the earlier engine/kind comparison) returns `False` for
every pair of handles. -/
theorem C10_is_clone_always_false (a b : Wrapper) : is_clone a b = false := rfl

theorem sumCompMemory_ok (l : List Comp) (h : ∀ c ∈ l, c.paramsRaise = false) :
    ∃ n, sumCompMemory l = .ok n := by
  induction l with
  | nil => exact ⟨0, rfl⟩
  | cons c rest ih =>
    obtain ⟨n, hn⟩ := ih fun x hx => h x (List.mem_cons_of_mem c hx)
    by_cases hc : c.hasParams = true
    · have hr : c.paramsRaise = false := h c (List.mem_cons_self c rest)
      by_cases hp : c.hasParams = true <;>
        simp [sumCompMemory, estimateComp, hc, hr, hn]
    · simp [sumCompMemory, hc, hn]

/-- C9 counterexample: the claim says the estimator never raises, but
`calculate_model_memory` has no exception handler — on an instance whose
`parameters()` call raises, the error propagates. -/
theorem C9_counterexample :
    calculate_model_memory raisingInst = .error () := rfl

/-- C9 amended: when the instance's own parameter introspection does not
raise (neither on the instance nor on any `__dict__` component), the
estimator is total; and for an instance exposing no parameter-buffer
introspection at all it returns the fixed conservative default of
`1024 * 1024 * 1024` bytes. -/
theorem C9_estimator_amended (m : MInst)
    (h : m.paramsRaise = false ∧ ∀ c ∈ m.comps, c.paramsRaise = false) :
    (∃ n, calculate_model_memory m = .ok n) ∧
    (m.hasParams = false → m.hasDict = false →
      calculate_model_memory m = .ok (1024 * 1024 * 1024)) := by
  constructor
  · by_cases hp : m.hasParams = true
    · exact ⟨(m.params.map fun p => p.1 * p.2).sum,
        by simp [calculate_model_memory, estimate_model_memory, hp, h.1]⟩
    · by_cases hd : m.hasDict = true
      · obtain ⟨n, hn⟩ := sumCompMemory_ok m.comps h.2
        exact ⟨n, by simp [calculate_model_memory, hp, hd, hn]⟩
      · exact ⟨1024 * 1024 * 1024, by simp [calculate_model_memory, hp, hd]⟩
  · intro hp hd
    simp [calculate_model_memory, hp, hd]

/-- C9 witness: the amended theorem applied to the opaque `bareInst`. -/
theorem C9_estimator_amended_witness :
    (bareInst.paramsRaise = false ∧ ∀ c ∈ bareInst.comps, c.paramsRaise = false) ∧
    calculate_model_memory bareInst = .ok (1024 * 1024 * 1024) :=
  ⟨⟨rfl, by simp [bareInst]⟩,
    (C9_estimator_amended bareInst ⟨rfl, by simp [bareInst]⟩).2 rfl rfl⟩

theorem dlookup_none_of_not_mem {c : Cache} {k : Key}
    (h : ¬ k ∈ c.map Prod.fst) : dlookup c k = none := by
  induction c with
  | nil => rfl
  | cons p rest ih =>
    rw [List.map_cons] at h
    have h1 : ¬ p.1 = k := fun hc => h (List.mem_cons.mpr (Or.inl hc.symm))
    have h2 : ¬ k ∈ rest.map Prod.fst := fun hc => h (List.mem_cons_of_mem _ hc)
    rw [dlookup, if_neg h1]
    exact ih h2

theorem dpop_of_lookup_none {c : Cache} {k : Key}
    (h : dlookup c k = none) : dpop c k = c := by
  induction c with
  | nil => rfl
  | cons p rest ih =>
    rw [dlookup] at h
    by_cases hp : p.1 = k
    · simp [hp] at h
    · rw [dpop, if_neg hp, ih (by simpa [hp] using h)]

theorem dinsert_of_lookup_none {c : Cache} {k : Key} (v : Wrapper)
    (h : dlookup c k = none) : dinsert k v c = c ++ [(k, v)] := by
  induction c with
  | nil => rfl
  | cons p rest ih =>
    rw [dlookup] at h
    by_cases hp : p.1 = k
    · simp [hp] at h
    · rw [dinsert, if_neg hp, ih (by simpa [hp] using h)]
      rfl

theorem dpop_stats {c : Cache} {k : Key} {w : Wrapper}
    (hnd : (c.map Prod.fst).Nodup) (h : dlookup c k = some w) :
    (dpop c k).length + 1 = c.length ∧
    ((dpop c k).map fun p => loaded_size p.2).sum + loaded_size w =
      (c.map fun p => loaded_size p.2).sum := by
  induction c with
  | nil => simp [dlookup] at h
  | cons p rest ih =>
    rw [dlookup] at h
    rw [List.map_cons, List.nodup_cons] at hnd
    by_cases hp : p.1 = k
    · rw [if_pos hp] at h
      have hw : p.2 = w := by injection h
      have hk : ¬ k ∈ rest.map Prod.fst := by
        rw [← hp]
        exact hnd.1
      have hrest : dpop rest k = rest :=
        dpop_of_lookup_none (dlookup_none_of_not_mem hk)
      rw [dpop, if_pos hp, hrest]
      refine ⟨by rw [List.length_cons], ?_⟩
      rw [List.map_cons, List.sum_cons, hw, Nat.add_comm]
    · rw [if_neg hp] at h
      obtain ⟨h1, h2⟩ := ih hnd.2 h
      rw [dpop, if_neg hp]
      refine ⟨?_, ?_⟩
      · rw [List.length_cons, List.length_cons]
        omega
      · rw [List.map_cons, List.sum_cons, List.map_cons, List.sum_cons]
        omega

/-- C8 counterexample: after `load_model("a", higgs_audio)` and
`remove_model("a")` the only cache entry is the quarantined shadow entry,
yet `get_stats` reports one handle, its full loaded megabytes, and counts
it under both its kind and its engine — contradicting the claim that
quarantined handles contribute to none of these. -/
theorem C8_counterexample :
    stateStats.cache.all (fun p => isShadowKey p.1) = true ∧
    (get_stats stateStats.cache).totalModels = 1 ∧
    (get_stats stateStats.cache).totalMemoryMB = 1024 ∧
    (get_stats stateStats.cache).byType = [("tts", 1)] ∧
    (get_stats stateStats.cache).byEngine = [("higgs_audio", 1)] := by
  refine ⟨?_, ?_, ?_, ?_, ?_⟩ <;> decide

/-- C8 amended: `get_stats` aggregates over the entire `_model_cache`,
quarantined shadow entries included — quarantining a `higgs_audio` entry
(with its shadow slot free and well-formed unique keys) changes neither
the reported handle count nor the reported loaded megabytes, because the
shadow entry keeps contributing both. -/
theorem C8_stats_include_quarantine (c : Cache) (k : Key) (w : Wrapper)
    (hnd : (c.map Prod.fst).Nodup) (h : dlookup c k = some w)
    (he : w.engine = "higgs_audio") (hs : dlookup c (shadowKey k) = none) :
    (get_stats (remove_model c k).2.1).totalModels = (get_stats c).totalModels ∧
    (get_stats (remove_model c k).2.1).totalMemoryMB =
      (get_stats c).totalMemoryMB := by
  have hc : (remove_model c k).2.1 = dpop c k ++ [(shadowKey k, w)] := by
    rw [remove_model, h]
    simp only [he, if_pos]
    have hs2 : dlookup (dpop c k) (shadowKey k) = none := by
      rw [dlookup_dpop, if_neg (fun hh : k = shadowKey k => shadowKey_ne k hh.symm)]
      exact hs
    simp [dinsert_of_lookup_none w hs2]
  obtain ⟨h1, h2⟩ := dpop_stats hnd h
  rw [hc]
  constructor
  · simp [get_stats]
    omega
  · simp [get_stats]
    omega

/-- C8 witness: the amended statement applied to the single-entry state
after one `load_model` of key `"a"`. -/
theorem C8_stats_include_quarantine_witness :
    ((state1.cache.map Prod.fst).Nodup ∧
      dlookup state1.cache keyA = some wA ∧
      wA.engine = "higgs_audio" ∧
      dlookup state1.cache (shadowKey keyA) = none) ∧
    (get_stats (remove_model state1.cache keyA).2.1).totalModels =
      (get_stats state1.cache).totalModels ∧
    (get_stats (remove_model state1.cache keyA).2.1).totalMemoryMB =
      (get_stats state1.cache).totalMemoryMB :=
  ⟨⟨by decide, by decide, rfl, by decide⟩,
    C8_stats_include_quarantine state1.cache keyA wA (by decide) (by decide) rfl
      (by decide)⟩

/-- C3 counterexample: with every call made on the single unshadowed key
`"a"` under the single engine `"higgs_audio"` (load, remove, clear, load,
remove), the reached cache holds an entry under `"_shadow_a"` *and* an
entry under `"_shadow__shadow_a"` — so the key `"_shadow_a"` is present in
the active namespace and in the quarantine namespace at once, violating
the claimed disjointness of the two namespaces. -/
theorem C3_counterexample :
    (dlookup state5.cache (shadowKey keyA)).isSome = true ∧
    (dlookup state5.cache (shadowKey (shadowKey keyA))).isSome = true := by
  exact ⟨by decide, by decide⟩

/-- C6 counterexample: in `state5` the doubly shadowed slot holds the
`higgs_audio` wrapper around instance 0; one further `remove_model` call
(on the shadow key, whose wrapper is itself resurrectable) shadow-inserts
onto that occupied slot and the quarantined instance 0 vanishes from the
manager's storage — so a `remove_model` sequence does destroy a
resurrectable engine's instance. -/
theorem C6_counterexample :
    (dlookup state5.cache (shadowKey (shadowKey keyA))).map Wrapper.engine =
      some "higgs_audio" ∧
    ((dlookup state5.cache (shadowKey (shadowKey keyA))).bind Wrapper.model).map
      MInst.iid = some 0 ∧
    state6.cache = (sysStep state5 (.remove (shadowKey keyA))).cache ∧
    (0 ∈ storedIds state5.cache) ∧
    ¬ (0 ∈ storedIds state6.cache) := by
  refine ⟨by decide, by decide, by decide, by decide, by decide⟩

/-- C6 amended: `remove_model` on a key holding a `higgs_audio` wrapper
never calls `model_unload` and moves the handle (with its instance) to the
shadow key, so the instance stays in the manager's storage — provided the
shadow slot is not already occupied; an occupied shadow slot is
overwritten by the move and its previous occupant leaves storage. -/
theorem C6_higgs_remove_never_unloads (c : Cache) (k : Key) (w : Wrapper)
    (h : dlookup c k = some w) (he : w.engine = "higgs_audio")
    (hs : dlookup c (shadowKey k) = none) :
    (remove_model c k).1 = true ∧
    (remove_model c k).2.2 = 0 ∧
    dlookup (remove_model c k).2.1 (shadowKey k) = some w := by
  rw [remove_model, h]
  dsimp only
  rw [if_pos he]
  refine ⟨rfl, rfl, ?_⟩
  rw [dlookup_dinsert, if_pos rfl]

/-- C6 witness: the amended statement applied to `state1`. -/
theorem C6_higgs_remove_never_unloads_witness :
    (dlookup state1.cache keyA = some wA ∧ wA.engine = "higgs_audio" ∧
      dlookup state1.cache (shadowKey keyA) = none) ∧
    (remove_model state1.cache keyA).2.2 = 0 ∧
    dlookup (remove_model state1.cache keyA).2.1 (shadowKey keyA) = some wA :=
  ⟨⟨by decide, rfl, by decide⟩,
    (C6_higgs_remove_never_unloads state1.cache keyA wA (by decide) rfl
      (by decide)).2⟩

theorem load_model_clock_ok (s : Mgr) (fac : Nat → Option MInst) (k : Key)
    (mt eng dev : String) (force : Bool) :
    ∀ w s1 n, load_model s fac k mt eng dev force = .ok w s1 n →
      s1.flag = s.flag ∧ s1.now = s.now := by
  unfold load_model loadMain resurrect reinitInPlace createModel creationPrelude
  repeat' split
  all_goals intro w s1 n h
  all_goals (try dsimp only at h)
  all_goals (first
    | (cases h <;> exact ⟨rfl, rfl⟩)
    | (split at h <;> (cases h <;> exact ⟨rfl, rfl⟩)))

theorem load_model_clock_err (s : Mgr) (fac : Nat → Option MInst) (k : Key)
    (mt eng dev : String) (force : Bool) :
    ∀ s1 n, load_model s fac k mt eng dev force = .err s1 n →
      s1.flag = s.flag ∧ s1.now = s.now := by
  unfold load_model loadMain resurrect reinitInPlace createModel creationPrelude
  repeat' split
  all_goals intro s1 n h
  all_goals (try dsimp only at h)
  all_goals (first
    | (cases h <;> exact ⟨rfl, rfl⟩)
    | (split at h <;> (cases h <;> exact ⟨rfl, rfl⟩)))

theorem sysStep_clock (s : Mgr) (op : SysOp) (hinv : s.flag < s.now) :
    s.flag ≤ (sysStep s op).flag ∧ (sysStep s op).flag < (sysStep s op).now := by
  cases op with
  | load k mt eng dev fac force =>
    dsimp only [sysStep]
    cases hres : load_model s fac k mt eng dev force with
    | ok w s1 n =>
      obtain ⟨h1, h2⟩ := load_model_clock_ok s fac k mt eng dev force w s1 n hres
      rw [h1, h2]
      exact ⟨Nat.le_refl _, hinv⟩
    | err s1 n =>
      obtain ⟨h1, h2⟩ := load_model_clock_err s fac k mt eng dev force s1 n hres
      rw [h1, h2]
      exact ⟨Nat.le_refl _, hinv⟩
  | remove k => exact ⟨Nat.le_refl _, hinv⟩
  | clear mtF engF => exact ⟨Nat.le_refl _, hinv⟩
  | detachKey k =>
    rw [sysStep]
    cases hc : dlookup s.cache k with
    | some w => exact ⟨Nat.le_of_lt hinv, Nat.lt_succ_self _⟩
    | none => exact ⟨Nat.le_refl _, hinv⟩
  | detachExt => exact ⟨Nat.le_of_lt hinv, Nat.lt_succ_self _⟩
  | hostPUnload k dev mem =>
    rw [sysStep, updateAt]
    cases hc : dlookup s.cache k with
    | some w => exact ⟨Nat.le_refl _, hinv⟩
    | none => exact ⟨Nat.le_refl _, hinv⟩
  | hostLoad k dev =>
    rw [sysStep, updateAt]
    cases hc : dlookup s.cache k with
    | some w => exact ⟨Nat.le_refl _, hinv⟩
    | none => exact ⟨Nat.le_refl _, hinv⟩
  | hostUnload k mem =>
    rw [sysStep, updateAt]
    cases hc : dlookup s.cache k with
    | some w => exact ⟨Nat.le_refl _, hinv⟩
    | none => exact ⟨Nat.le_refl _, hinv⟩

/-- C7: from any state whose invalidation flag sits strictly below the
current wall-clock sample (true at process start and preserved forever),
the Invalidation Epoch `_global_cache_invalidation_flag` never decreases
across any sequence of operations, and strictly increases after every
`detach` call — whether on a cached handle or on a handle the host still
references outside the cache. -/
theorem C7_epoch_monotonicity (s : Mgr) (hinv : s.flag < s.now) :
    (∀ ops : List SysOp,
      s.flag ≤ (runOps s ops).flag ∧ (runOps s ops).flag < (runOps s ops).now) ∧
    (∀ k w, dlookup s.cache k = some w →
      s.flag < (sysStep s (.detachKey k)).flag) ∧
    s.flag < (sysStep s .detachExt).flag := by
  refine ⟨?_, ?_, hinv⟩
  · intro ops
    induction ops generalizing s with
    | nil => exact ⟨Nat.le_refl _, hinv⟩
    | cons op ops ih =>
      obtain ⟨h1, h2⟩ := sysStep_clock s op hinv
      obtain ⟨h3, h4⟩ := ih (sysStep s op) h2
      exact ⟨Nat.le_trans h1 h3, h4⟩
  · intro k w hk
    rw [sysStep, hk]
    exact hinv

/-- C7 witness: the theorem applied to the concrete state `state1`, whose
cache holds `wA` under `"a"`. -/
theorem C7_epoch_monotonicity_witness :
    state1.flag < state1.now ∧
    state1.flag < (sysStep state1 (.detachKey keyA)).flag ∧
    state1.flag ≤ (runOps state1 [.detachExt, .remove keyA]).flag :=
  ⟨by decide,
    (C7_epoch_monotonicity state1 (by decide)).2.1 keyA wA (by decide),
    ((C7_epoch_monotonicity state1 (by decide)).1 [.detachExt, .remove keyA]).1⟩

/-- C2: for a key holding a `higgs_audio` (resurrectable) wrapper,
`remove_model` followed by `load_model` resurrects: the returned handle is
the same object (`uid`) wrapping the same underlying instance (object id),
with `_is_valid_for_reuse = True`, the exposed
`cuda_graphs_initialized` flag reset to `False` when present, and the
factory not invoked (the invocation count of the call is 0). -/
theorem C2_resurrection (s : Mgr) (k : Key) (w : Wrapper)
    (fac : Nat → Option MInst) (mt dev : String)
    (h : dlookup s.cache k = some w) (he : w.engine = "higgs_audio") :
    ∃ w1 s1,
      load_model (sysStep s (.remove k)) fac k mt "higgs_audio" dev false =
        .ok w1 s1 0 ∧
      w1.uid = w.uid ∧
      w1.model.map MInst.iid = w.model.map MInst.iid ∧
      w1.validForReuse = true ∧
      w1.model.bind MInst.graphsFlag =
        (w.model.bind MInst.graphsFlag).map (fun _ => false) := by
  have hc : (sysStep s (.remove k)).cache =
      dinsert (shadowKey k) w (dpop s.cache k) := by
    dsimp only [sysStep]
    rw [remove_model, h]
    dsimp only
    rw [if_pos he]
  have hsh : dlookup (sysStep s (.remove k)).cache (shadowKey k) = some w := by
    rw [hc, dlookup_dinsert, if_pos rfl]
  refine ⟨{ resetGraphs w with validForReuse := true },
    { sysStep s (.remove k) with
        cache := dinsert k { resetGraphs w with validForReuse := true }
          (dpop (sysStep s (.remove k)).cache (shadowKey k)) },
    ?_, ?_, ?_, rfl, ?_⟩
  · rw [load_model, if_pos rfl, hsh]
    rfl
  · exact (resetGraphs_fields w).1
  · exact (resetGraphs_fields w).2.2.2.2.2
  · cases hw : w.model <;> simp [resetGraphs, hw]

/-- C2 witness: the concrete state `state1` with `wA` cached under `"a"`. -/
theorem C2_resurrection_witness :
    (dlookup state1.cache keyA = some wA ∧ wA.engine = "higgs_audio") ∧
    ∃ w1 s1,
      load_model (sysStep state1 (.remove keyA)) higgsFac keyA "tts"
          "higgs_audio" "cuda" false = .ok w1 s1 0 ∧
      w1.uid = wA.uid ∧
      w1.model.map MInst.iid = wA.model.map MInst.iid ∧
      w1.validForReuse = true ∧
      w1.model.bind MInst.graphsFlag =
        (wA.model.bind MInst.graphsFlag).map (fun _ => false) :=
  ⟨⟨by decide, rfl⟩,
    C2_resurrection state1 keyA wA higgsFac "tts" "cuda" (by decide) rfl⟩

theorem dlookup_isSome_of_mem {c : Cache} {p : Key × Wrapper} (h : p ∈ c) :
    (dlookup c p.1).isSome := by
  induction c with
  | nil => cases h
  | cons q rest ih =>
    rw [dlookup]
    by_cases hq : q.1 = p.1
    · rw [if_pos hq]
      rfl
    · rw [if_neg hq]
      rcases List.mem_cons.mp h with h1 | h1
      · exact absurd (show q.1 = p.1 by rw [h1]) hq
      · exact ih h1

theorem remove_model_lookup_none {c : Cache} {u x : Key}
    (hx : dlookup c x = none) (hsh : ¬ x = shadowKey u) :
    dlookup (remove_model c u).2.1 x = none := by
  rw [remove_model]
  cases hu : dlookup c u with
  | none => exact hx
  | some w =>
    dsimp only
    by_cases he : w.engine = "higgs_audio"
    · rw [if_pos he]
      dsimp only
      rw [dlookup_dinsert, if_neg (fun hh : shadowKey u = x => hsh hh.symm),
        dlookup_dpop]
      by_cases hux : u = x
      · rw [if_pos hux]
      · rw [if_neg hux]
        exact hx
    · rw [if_neg he]
      dsimp only
      rw [dlookup_dpop]
      by_cases hux : u = x
      · rw [if_pos hux]
      · rw [if_neg hux]
        exact hx

theorem removeKeys_lookup_none {ks : List Key} {c : Cache} {x : Key}
    (hx : dlookup c x = none) (hks : ∀ u ∈ ks, ¬ x = shadowKey u) :
    dlookup (removeKeys c ks) x = none := by
  induction ks generalizing c with
  | nil => exact hx
  | cons u ks ih =>
    rw [removeKeys]
    exact ih (remove_model_lookup_none hx (hks u (List.mem_cons_self u ks)))
      fun v hv => hks v (List.mem_cons_of_mem u hv)

theorem remove_model_lookup_self (c : Cache) (k : Key) :
    dlookup (remove_model c k).2.1 k = none := by
  rw [remove_model]
  cases hu : dlookup c k with
  | none => exact hu
  | some w =>
    dsimp only
    by_cases he : w.engine = "higgs_audio"
    · rw [if_pos he]
      dsimp only
      rw [dlookup_dinsert, if_neg (shadowKey_ne k), dlookup_dpop, if_pos rfl]
    · rw [if_neg he]
      dsimp only
      rw [dlookup_dpop, if_pos rfl]

theorem reliefKeys_mem {c : Cache} {eng : String} {u : Key}
    (h : u ∈ reliefKeys c eng) : (dlookup c u).isSome := by
  rw [reliefKeys] at h
  obtain ⟨p, hp, hpu⟩ := List.mem_map.mp h
  have hm := dlookup_isSome_of_mem (List.mem_of_mem_filter hp)
  rwa [hpu] at hm

theorem createModel_post (s : Mgr) (fac : Nat → Option MInst) (k : Key)
    (mt eng dev : String) (w1 : Wrapper) (s1 : Mgr) (n1 : Nat)
    (hk : dlookup s.cache k = none)
    (hok : createModel s fac k mt eng dev = .ok w1 s1 n1) :
    dlookup s1.cache k = some w1 ∧ w1.validForReuse = true ∧ n1 = 1 ∧
      (dlookup s.cache (shadowKey k) = none →
        dlookup s1.cache (shadowKey k) = none) := by
  rw [createModel, creationPrelude] at hok
  by_cases hrel : s.comfy = true ∧ ¬ dev = "cpu" ∧ mt = "tts" ∧ ¬ eng = ""
  · rw [if_pos hrel] at hok
    dsimp only at hok
    cases hcm : calcMemOpt (fac s.nextId) with
    | error e =>
      rw [hcm] at hok
      cases hok
    | ok sz =>
      rw [hcm] at hok
      cases hok
      refine ⟨by rw [dlookup_dinsert, if_pos rfl], rfl, rfl, fun hs => ?_⟩
      have hs2 : dlookup (removeKeys s.cache (reliefKeys s.cache eng))
          (shadowKey k) = none := by
        refine removeKeys_lookup_none hs fun u hu hh => ?_
        have hu2 := reliefKeys_mem hu
        rw [← shadowKey_inj hh] at hu2
        rw [hk] at hu2
        cases hu2
      rw [dlookup_dinsert, if_neg (fun hh : k = shadowKey k => shadowKey_ne k hh.symm)]
      exact hs2
  · rw [if_neg hrel] at hok
    dsimp only at hok
    cases hcm : calcMemOpt (fac s.nextId) with
    | error e =>
      rw [hcm] at hok
      cases hok
    | ok sz =>
      rw [hcm] at hok
      cases hok
      refine ⟨by rw [dlookup_dinsert, if_pos rfl], rfl, rfl, fun hs => ?_⟩
      rw [dlookup_dinsert, if_neg (fun hh : k = shadowKey k => shadowKey_ne k hh.symm)]
      exact hs

theorem loadMain_post (s : Mgr) (fac : Nat → Option MInst) (k : Key)
    (mt eng dev : String) (w1 : Wrapper) (s1 : Mgr) (n1 : Nat)
    (hok : loadMain s fac k mt eng dev false = .ok w1 s1 n1) :
    dlookup s1.cache k = some w1 ∧ w1.validForReuse = true ∧ n1 ≤ 1 ∧
      (eng = "higgs_audio" → dlookup s.cache (shadowKey k) = none →
        dlookup s1.cache (shadowKey k) = none) := by
  rw [loadMain] at hok
  cases hw : dlookup s.cache k with
  | some w =>
    rw [hw] at hok
    dsimp only at hok
    rw [if_pos rfl] at hok
    by_cases hv : w.validForReuse = true
    · rw [if_pos hv] at hok
      by_cases hd : ¬ w.currentDevice = dev ∧ ¬ dev = "auto"
      · rw [if_pos hd] at hok
        cases hok
        refine ⟨by rw [dlookup_dinsert, if_pos rfl], ?_, by omega, fun _ hs => ?_⟩
        · rw [(model_load_fields w dev).2.2.2.2.2]
          exact hv
        · rw [dlookup_dinsert,
            if_neg (fun hh : k = shadowKey k => shadowKey_ne k hh.symm)]
          exact hs
      · rw [if_neg hd] at hok
        cases hok
        exact ⟨hw, hv, by omega, fun _ hs => hs⟩
    · rw [if_neg hv] at hok
      by_cases he : eng = "higgs_audio"
      · rw [if_pos he] at hok
        rw [reinitInPlace] at hok
        dsimp only at hok
        cases hok
        refine ⟨by rw [dlookup_dinsert, if_pos rfl], rfl, by omega, fun _ hs => ?_⟩
        rw [dlookup_dinsert,
          if_neg (fun hh : k = shadowKey k => shadowKey_ne k hh.symm)]
        exact hs
      · rw [if_neg he] at hok
        obtain ⟨h1, h2, h3, _⟩ := createModel_post _ fac k mt eng dev w1 s1 n1
          (remove_model_lookup_self s.cache k) hok
        exact ⟨h1, h2, by omega, fun hhe _ => absurd hhe he⟩
  | none =>
    rw [hw] at hok
    dsimp only at hok
    obtain ⟨h1, h2, h3, h4⟩ := createModel_post s fac k mt eng dev w1 s1 n1 hw hok
    exact ⟨h1, h2, by omega, fun _ hs => h4 hs⟩

theorem load_ok_post (s : Mgr) (fac : Nat → Option MInst) (k : Key)
    (mt eng dev : String) (w1 : Wrapper) (s1 : Mgr) (n1 : Nat)
    (hok : load_model s fac k mt eng dev false = .ok w1 s1 n1) :
    dlookup s1.cache k = some w1 ∧ w1.validForReuse = true ∧ n1 ≤ 1 ∧
      (eng = "higgs_audio" → dlookup s1.cache (shadowKey k) = none) := by
  rw [load_model] at hok
  by_cases he : eng = "higgs_audio"
  · rw [if_pos he] at hok
    cases hsh : dlookup s.cache (shadowKey k) with
    | some w =>
      rw [hsh] at hok
      dsimp only at hok
      rw [resurrect] at hok
      dsimp only at hok
      cases hok
      refine ⟨by rw [dlookup_dinsert, if_pos rfl], rfl, by omega, fun _ => ?_⟩
      rw [dlookup_dinsert,
        if_neg (fun hh : k = shadowKey k => shadowKey_ne k hh.symm),
        dlookup_dpop, if_pos rfl]
    | none =>
      rw [hsh] at hok
      dsimp only at hok
      obtain ⟨h1, h2, h3, h4⟩ := loadMain_post s fac k mt eng dev w1 s1 n1 hok
      exact ⟨h1, h2, h3, fun _ => h4 he hsh⟩
  · rw [if_neg he] at hok
    obtain ⟨h1, h2, h3, _⟩ := loadMain_post s fac k mt eng dev w1 s1 n1 hok
    exact ⟨h1, h2, h3, fun hhe => absurd hhe he⟩

theorem loadMain_hit (s : Mgr) (fac : Nat → Option MInst) (k : Key)
    (mt eng dev : String) (w : Wrapper)
    (h : dlookup s.cache k = some w) (hv : w.validForReuse = true) :
    ∃ w2 s2, loadMain s fac k mt eng dev false = .ok w2 s2 0 ∧
      w2.uid = w.uid := by
  by_cases hd : ¬ w.currentDevice = dev ∧ ¬ dev = "auto"
  · refine ⟨model_load w dev,
      { s with cache := dinsert k (model_load w dev) s.cache }, ?_,
      (model_load_fields w dev).1⟩
    rw [loadMain, h]
    dsimp only
    rw [if_pos rfl, if_pos hv, if_pos hd]
  · refine ⟨w, s, ?_, rfl⟩
    rw [loadMain, h]
    dsimp only
    rw [if_pos rfl, if_pos hv, if_neg hd]

theorem load_hit (s : Mgr) (fac : Nat → Option MInst) (k : Key)
    (mt eng dev : String) (w : Wrapper)
    (h : dlookup s.cache k = some w) (hv : w.validForReuse = true)
    (hsh : eng = "higgs_audio" → dlookup s.cache (shadowKey k) = none) :
    ∃ w2 s2, load_model s fac k mt eng dev false = .ok w2 s2 0 ∧
      w2.uid = w.uid := by
  obtain ⟨w2, s2, hm, hu⟩ := loadMain_hit s fac k mt eng dev w h hv
  refine ⟨w2, s2, ?_, hu⟩
  rw [load_model]
  by_cases he : eng = "higgs_audio"
  · rw [if_pos he, hsh he]
    exact hm
  · rw [if_neg he]
    exact hm

/-- C1: a completed `load_model` call with `force_reload=False` immediately
followed by another on the same key, factory and device returns the
identical handle object (same `uid`) both times, and across the two calls
the factory is invoked at most once. -/
theorem C1_idempotent_reuse (s : Mgr) (fac : Nat → Option MInst) (k : Key)
    (mt eng dev : String) (w1 : Wrapper) (s1 : Mgr) (n1 : Nat)
    (hok : load_model s fac k mt eng dev false = .ok w1 s1 n1) :
    ∃ w2 s2 n2, load_model s1 fac k mt eng dev false = .ok w2 s2 n2 ∧
      w2.uid = w1.uid ∧ n1 + n2 ≤ 1 := by
  obtain ⟨ha, hb, hc, hd⟩ := load_ok_post s fac k mt eng dev w1 s1 n1 hok
  obtain ⟨w2, s2, h2, hu⟩ := load_hit s1 fac k mt eng dev w1 ha hb hd
  exact ⟨w2, s2, 0, h2, hu, by omega⟩

/-- C1 witness: the first call from the empty process-start state creates
`wA` (one factory invocation); the theorem yields the second call's reuse. -/
theorem C1_idempotent_reuse_witness :
    load_model (initMgr false) higgsFac keyA "tts" "higgs_audio" "cuda" false =
      .ok wA state1 1 ∧
    ∃ w2 s2 n2,
      load_model state1 higgsFac keyA "tts" "higgs_audio" "cuda" false =
        .ok w2 s2 n2 ∧ w2.uid = wA.uid ∧ 1 + n2 ≤ 1 :=
  ⟨rfl, C1_idempotent_reuse (initMgr false) higgsFac keyA "tts" "higgs_audio"
    "cuda" wA state1 1 rfl⟩

theorem dlookup_mem {c : Cache} {k : Key} {w : Wrapper}
    (h : dlookup c k = some w) : (k, w) ∈ c := by
  induction c with
  | nil => cases h
  | cons p rest ih =>
    rw [dlookup] at h
    by_cases hp : p.1 = k
    · rw [if_pos hp] at h
      have hw : p.2 = w := by injection h
      have : p = (k, w) := Prod.ext hp hw
      rw [← this]
      exact List.mem_cons_self p rest
    · rw [if_neg hp] at h
      exact List.mem_cons_of_mem p (ih h)

theorem remove_model_destroy {c : Cache} {u : Key} {w : Wrapper}
    (h : dlookup c u = some w) (he : ¬ w.engine = "higgs_audio") :
    (remove_model c u).2.1 = dpop c u := by
  rw [remove_model, h]
  dsimp only
  rw [if_neg he]

/-- `I1` half of `CacheOK` extracted. -/
theorem cacheOK_engine {E : Key → String} {c : Cache} (hc : CacheOK E c)
    {k : Key} {w : Wrapper} (h : dlookup c k = some w) :
    w.engine = E (keyBase k) ∧ (isShadowKey k = true → w.engine = "higgs_audio") :=
  hc.1 (k, w) (dlookup_mem h)

theorem dinsert_existing_cacheOK {E : Key → String} {c : Cache}
    (hc : CacheOK E c) {k : Key} {w v : Wrapper}
    (h : dlookup c k = some w) (hv : v.engine = w.engine) :
    CacheOK E (dinsert k v c) := by
  obtain ⟨h1, h2⟩ := hc
  constructor
  · intro p hp
    rcases mem_dinsert hp with hp1 | hp1
    · rw [hp1]
      obtain ⟨ha, hb⟩ := h1 (k, w) (dlookup_mem h)
      exact ⟨by rw [hv]; exact ha, fun hs => by rw [hv]; exact hb hs⟩
    · exact h1 p hp1
  · intro x hx hcon
    apply h2 x hx
    obtain ⟨ha, hb⟩ := hcon
    rw [dlookup_dinsert] at ha hb
    constructor
    · by_cases hkx : k = x
      · rw [← hkx, h]
        rfl
      · rw [if_neg hkx] at ha
        exact ha
    · by_cases hkx : k = shadowKey x
      · rw [← hkx, h]
        rfl
      · rw [if_neg hkx] at hb
        exact hb

theorem remove_model_cacheOK {E : Key → String} {c : Cache} (hc : CacheOK E c)
    (u : Key) : CacheOK E (remove_model c u).2.1 := by
  obtain ⟨h1, h2⟩ := hc
  rw [remove_model]
  cases hu : dlookup c u with
  | none => exact ⟨h1, h2⟩
  | some w =>
    dsimp only
    by_cases he : w.engine = "higgs_audio"
    · rw [if_pos he]
      dsimp only
      constructor
      · intro p hp
        rcases mem_dinsert hp with hp1 | hp1
        · rw [hp1]
          obtain ⟨ha, _⟩ := h1 (u, w) (dlookup_mem hu)
          refine ⟨?_, fun _ => he⟩
          rw [keyBase_shadowKey]
          exact ha
        · exact h1 p (mem_dpop hp1)
      · intro x hx hcon
        obtain ⟨ha, hb⟩ := hcon
        rw [dlookup_dinsert] at ha hb
        rw [if_neg (fun hh : shadowKey u = x => not_shadow_ne_shadowKey hx hh.symm)] at ha
        rw [dlookup_dpop] at ha
        by_cases hux : u = x
        · rw [if_pos hux] at ha
          cases ha
        · rw [if_neg hux] at ha
          by_cases hsh : shadowKey u = shadowKey x
          · exact hux (shadowKey_inj hsh)
          · rw [if_neg hsh, dlookup_dpop] at hb
            by_cases hun : u = shadowKey x
            · rw [if_pos hun] at hb
              cases hb
            · rw [if_neg hun] at hb
              exact h2 x hx ⟨ha, hb⟩
    · rw [if_neg he]
      dsimp only
      constructor
      · intro p hp
        exact h1 p (mem_dpop hp)
      · intro x hx hcon
        obtain ⟨ha, hb⟩ := hcon
        rw [dlookup_dpop] at ha hb
        by_cases h3 : u = x
        · rw [if_pos h3] at ha
          cases ha
        · rw [if_neg h3] at ha
          by_cases h4 : u = shadowKey x
          · rw [if_pos h4] at hb
            cases hb
          · rw [if_neg h4] at hb
            exact h2 x hx ⟨ha, hb⟩

theorem removeKeys_cacheOK {E : Key → String} {c : Cache} (hc : CacheOK E c)
    (ks : List Key) : CacheOK E (removeKeys c ks) := by
  induction ks generalizing c with
  | nil => exact hc
  | cons u ks ih =>
    rw [removeKeys]
    exact ih (remove_model_cacheOK hc u)

theorem dinsert_new_cacheOK {E : Key → String} {c : Cache} (hc : CacheOK E c)
    {k : Key} {w : Wrapper} (hk : isShadowKey k = false) (he : w.engine = E k)
    (hsh : dlookup c (shadowKey k) = none) : CacheOK E (dinsert k w c) := by
  obtain ⟨h1, h2⟩ := hc
  constructor
  · intro p hp
    rcases mem_dinsert hp with hp1 | hp1
    · rw [hp1]
      refine ⟨by rw [keyBase_of_not_shadow hk]; exact he, fun hs => ?_⟩
      rw [hk] at hs
      cases hs
    · exact h1 p hp1
  · intro x hx hcon
    obtain ⟨ha, hb⟩ := hcon
    rw [dlookup_dinsert] at ha hb
    rw [if_neg (not_shadow_ne_shadowKey hk)] at hb
    by_cases hkx : k = x
    · rw [← hkx, hsh] at hb
      cases hb
    · rw [if_neg hkx] at ha
      exact h2 x hx ⟨ha, hb⟩

theorem resurrect_cacheOK {E : Key → String} {c : Cache} (hc : CacheOK E c)
    {k : Key} {w : Wrapper} (hk : isShadowKey k = false)
    (hsh : dlookup c (shadowKey k) = some w) {v : Wrapper}
    (hv : v.engine = w.engine) :
    CacheOK E (dinsert k v (dpop c (shadowKey k))) := by
  obtain ⟨h1, h2⟩ := hc
  constructor
  · intro p hp
    rcases mem_dinsert hp with hp1 | hp1
    · rw [hp1]
      obtain ⟨ha, _⟩ := h1 (shadowKey k, w) (dlookup_mem hsh)
      rw [keyBase_shadowKey] at ha
      refine ⟨by rw [hv]; exact ha, fun hs => ?_⟩
      rw [hk] at hs
      cases hs
    · exact h1 p (mem_dpop hp1)
  · intro x hx hcon
    obtain ⟨ha, hb⟩ := hcon
    rw [dlookup_dinsert] at ha hb
    rw [if_neg (not_shadow_ne_shadowKey hk)] at hb
    rw [dlookup_dpop] at hb
    by_cases hkx : k = x
    · rw [← hkx, if_pos rfl] at hb
      cases hb
    · rw [if_neg hkx, dlookup_dpop] at ha
      rw [if_neg (fun hh : shadowKey k = x => not_shadow_ne_shadowKey hx hh.symm)]
        at ha
      by_cases hss : shadowKey k = shadowKey x
      · exact hkx (shadowKey_inj hss)
      · rw [if_neg hss] at hb
        exact h2 x hx ⟨ha, hb⟩

theorem shadow_none_of_ne {E : Key → String} {c : Cache} (hc : CacheOK E c)
    {k : Key} (hk : isShadowKey k = false) {eng : String} (he : eng = E k)
    (hne : ¬ eng = "higgs_audio") : dlookup c (shadowKey k) = none := by
  cases hq : dlookup c (shadowKey k) with
  | none => rfl
  | some w =>
    obtain ⟨ha, hb⟩ := cacheOK_engine hc hq
    rw [keyBase_shadowKey, keyBase_of_not_shadow hk] at ha
    have h5 : w.engine = "higgs_audio" := hb (isShadowKey_shadowKey k)
    rw [h5] at ha
    exact absurd (he.trans ha.symm) hne

theorem createModel_cacheOK {E : Key → String} (s : Mgr)
    (fac : Nat → Option MInst) (k : Key) (mt eng dev : String)
    (hc : CacheOK E s.cache) (hk : isShadowKey k = false) (he : eng = E k)
    (hlk : dlookup s.cache k = none)
    (hsh : dlookup s.cache (shadowKey k) = none) :
    (∀ w1 s1 n1, createModel s fac k mt eng dev = .ok w1 s1 n1 →
      CacheOK E s1.cache) ∧
    (∀ s1 n1, createModel s fac k mt eng dev = .err s1 n1 →
      CacheOK E s1.cache) := by
  have hrk : ∀ u ∈ reliefKeys s.cache eng, ¬ shadowKey k = shadowKey u := by
    intro u hu hh
    have hu2 := reliefKeys_mem hu
    rw [← shadowKey_inj hh, hlk] at hu2
    cases hu2
  constructor
  · intro w1 s1 n1 hok
    rw [createModel, creationPrelude] at hok
    by_cases hrel : s.comfy = true ∧ ¬ dev = "cpu" ∧ mt = "tts" ∧ ¬ eng = ""
    · rw [if_pos hrel] at hok
      dsimp only at hok
      cases hcm : calcMemOpt (fac s.nextId) with
      | error e =>
        rw [hcm] at hok
        cases hok
      | ok sz =>
        rw [hcm] at hok
        cases hok
        exact dinsert_new_cacheOK (removeKeys_cacheOK hc _) hk he
          (removeKeys_lookup_none hsh hrk)
    · rw [if_neg hrel] at hok
      dsimp only at hok
      cases hcm : calcMemOpt (fac s.nextId) with
      | error e =>
        rw [hcm] at hok
        cases hok
      | ok sz =>
        rw [hcm] at hok
        cases hok
        exact dinsert_new_cacheOK hc hk he hsh
  · intro s1 n1 herr
    rw [createModel, creationPrelude] at herr
    by_cases hrel : s.comfy = true ∧ ¬ dev = "cpu" ∧ mt = "tts" ∧ ¬ eng = ""
    · rw [if_pos hrel] at herr
      dsimp only at herr
      cases hcm : calcMemOpt (fac s.nextId) with
      | error e =>
        rw [hcm] at herr
        cases herr
        exact removeKeys_cacheOK hc _
      | ok sz =>
        rw [hcm] at herr
        cases herr
    · rw [if_neg hrel] at herr
      dsimp only at herr
      cases hcm : calcMemOpt (fac s.nextId) with
      | error e =>
        rw [hcm] at herr
        cases herr
        exact hc
      | ok sz =>
        rw [hcm] at herr
        cases herr

theorem loadMain_cacheOK {E : Key → String} (s : Mgr)
    (fac : Nat → Option MInst) (k : Key) (mt eng dev : String) (force : Bool)
    (hc : CacheOK E s.cache) (hk : isShadowKey k = false) (he : eng = E k)
    (hsh : eng = "higgs_audio" → dlookup s.cache (shadowKey k) = none) :
    (∀ w1 s1 n1, loadMain s fac k mt eng dev force = .ok w1 s1 n1 →
      CacheOK E s1.cache) ∧
    (∀ s1 n1, loadMain s fac k mt eng dev force = .err s1 n1 →
      CacheOK E s1.cache) := by
  have hsh2 : dlookup s.cache (shadowKey k) = none := by
    by_cases hq : eng = "higgs_audio"
    · exact hsh hq
    · exact shadow_none_of_ne hc hk he hq
  have hcreate := fun (hw : dlookup s.cache k = none) =>
    createModel_cacheOK s fac k mt eng dev hc hk he hw hsh2
  have hremove : ∀ w, dlookup s.cache k = some w → ¬ eng = "higgs_audio" →
      (∀ w1 s1 n1,
        createModel { s with cache := (remove_model s.cache k).2.1 } fac k mt
          eng dev = .ok w1 s1 n1 → CacheOK E s1.cache) ∧
      (∀ s1 n1,
        createModel { s with cache := (remove_model s.cache k).2.1 } fac k mt
          eng dev = .err s1 n1 → CacheOK E s1.cache) := by
    intro w hw hne
    have hwe : ¬ w.engine = "higgs_audio" := by
      obtain ⟨ha, _⟩ := cacheOK_engine hc hw
      rw [keyBase_of_not_shadow hk] at ha
      rw [ha, ← he]
      exact hne
    have hdestroy := remove_model_destroy hw hwe
    refine createModel_cacheOK _ fac k mt eng dev ?_ hk he
      (remove_model_lookup_self s.cache k) ?_
    · exact remove_model_cacheOK hc k
    · rw [hdestroy, dlookup_dpop,
        if_neg (fun hh : k = shadowKey k => shadowKey_ne k hh.symm)]
      exact hsh2
  constructor
  · intro w1 s1 n1 hok
    rw [loadMain] at hok
    cases hw : dlookup s.cache k with
    | some w =>
      rw [hw] at hok
      dsimp only at hok
      by_cases hf : force = false
      · rw [if_pos hf] at hok
        by_cases hv : w.validForReuse = true
        · rw [if_pos hv] at hok
          by_cases hd : ¬ w.currentDevice = dev ∧ ¬ dev = "auto"
          · rw [if_pos hd] at hok
            cases hok
            exact dinsert_existing_cacheOK hc hw (model_load_fields w dev).2.2.2.1
          · rw [if_neg hd] at hok
            cases hok
            exact hc
        · rw [if_neg hv] at hok
          by_cases hq : eng = "higgs_audio"
          · rw [if_pos hq, reinitInPlace] at hok
            dsimp only at hok
            cases hok
            refine dinsert_existing_cacheOK hc hw ?_
            rw [(model_load_fields (resetGraphs w) dev).2.2.2.1]
            exact (resetGraphs_fields w).2.2.1
          · rw [if_neg hq] at hok
            exact (hremove w hw hq).1 w1 s1 n1 hok
      · rw [if_neg hf] at hok
        by_cases hq : eng = "higgs_audio"
        · rw [if_pos hq, reinitInPlace] at hok
          dsimp only at hok
          cases hok
          refine dinsert_existing_cacheOK hc hw ?_
          rw [(model_load_fields (resetGraphs w) dev).2.2.2.1]
          exact (resetGraphs_fields w).2.2.1
        · rw [if_neg hq] at hok
          exact (hremove w hw hq).1 w1 s1 n1 hok
    | none =>
      rw [hw] at hok
      dsimp only at hok
      exact (hcreate hw).1 w1 s1 n1 hok
  · intro s1 n1 herr
    rw [loadMain] at herr
    cases hw : dlookup s.cache k with
    | some w =>
      rw [hw] at herr
      dsimp only at herr
      by_cases hf : force = false
      · rw [if_pos hf] at herr
        by_cases hv : w.validForReuse = true
        · rw [if_pos hv] at herr
          by_cases hd : ¬ w.currentDevice = dev ∧ ¬ dev = "auto"
          · rw [if_pos hd] at herr
            cases herr
          · rw [if_neg hd] at herr
            cases herr
        · rw [if_neg hv] at herr
          by_cases hq : eng = "higgs_audio"
          · rw [if_pos hq, reinitInPlace] at herr
            dsimp only at herr
            cases herr
          · rw [if_neg hq] at herr
            exact (hremove w hw hq).2 s1 n1 herr
      · rw [if_neg hf] at herr
        by_cases hq : eng = "higgs_audio"
        · rw [if_pos hq, reinitInPlace] at herr
          dsimp only at herr
          cases herr
        · rw [if_neg hq] at herr
          exact (hremove w hw hq).2 s1 n1 herr
    | none =>
      rw [hw] at herr
      dsimp only at herr
      exact (hcreate hw).2 s1 n1 herr

theorem load_cacheOK {E : Key → String} (s : Mgr) (fac : Nat → Option MInst)
    (k : Key) (mt eng dev : String) (force : Bool)
    (hc : CacheOK E s.cache) (hk : isShadowKey k = false) (he : eng = E k) :
    CacheOK E (sysStep s (.load k mt eng dev fac force)).cache := by
  dsimp only [sysStep]
  cases hres : load_model s fac k mt eng dev force with
  | ok w1 s1 n1 =>
    rw [load_model] at hres
    by_cases hq : eng = "higgs_audio"
    · rw [if_pos hq] at hres
      cases hq2 : dlookup s.cache (shadowKey k) with
      | some w =>
        rw [hq2] at hres
        dsimp only at hres
        rw [resurrect] at hres
        dsimp only at hres
        cases hres
        exact resurrect_cacheOK hc hk hq2 rfl
      | none =>
        rw [hq2] at hres
        dsimp only at hres
        exact (loadMain_cacheOK s fac k mt eng dev force hc hk he
          fun _ => hq2).1 w1 s1 n1 hres
    · rw [if_neg hq] at hres
      exact (loadMain_cacheOK s fac k mt eng dev force hc hk he
        fun hh => absurd hh hq).1 w1 s1 n1 hres
  | err s1 n1 =>
    rw [load_model] at hres
    by_cases hq : eng = "higgs_audio"
    · rw [if_pos hq] at hres
      cases hq2 : dlookup s.cache (shadowKey k) with
      | some w =>
        rw [hq2] at hres
        dsimp only at hres
        rw [resurrect] at hres
        dsimp only at hres
        cases hres
      | none =>
        rw [hq2] at hres
        dsimp only at hres
        exact (loadMain_cacheOK s fac k mt eng dev force hc hk he
          fun _ => hq2).2 s1 n1 hres
    · rw [if_neg hq] at hres
      exact (loadMain_cacheOK s fac k mt eng dev force hc hk he
        fun hh => absurd hh hq).2 s1 n1 hres

theorem sysStep_cacheOK {E : Key → String} (s : Mgr) (op : SysOp)
    (hc : CacheOK E s.cache) (hop : OpOK E op) :
    CacheOK E (sysStep s op).cache := by
  cases op with
  | load k mt eng dev fac force =>
    obtain ⟨hk, he⟩ := hop
    exact load_cacheOK s fac k mt eng dev force hc hk he
  | remove k => exact remove_model_cacheOK hc k
  | clear mtF engF =>
    dsimp only [sysStep]
    rw [clear_cache]
    exact removeKeys_cacheOK hc _
  | detachKey k =>
    dsimp only [sysStep]
    cases hw : dlookup s.cache k with
    | some w =>
      dsimp only
      refine dinsert_existing_cacheOK hc hw ?_
      exact (detachW_fields w).2.2.2.1
    | none => exact hc
  | detachExt => exact hc
  | hostPUnload k dev mem =>
    dsimp only [sysStep, updateAt]
    cases hw : dlookup s.cache k with
    | some w =>
      dsimp only
      exact dinsert_existing_cacheOK hc hw (pUnload_fields w dev mem).2.2.2.1
    | none => exact hc
  | hostLoad k dev =>
    dsimp only [sysStep, updateAt]
    cases hw : dlookup s.cache k with
    | some w =>
      dsimp only
      exact dinsert_existing_cacheOK hc hw (model_load_fields w dev).2.2.2.1
    | none => exact hc
  | hostUnload k mem =>
    dsimp only [sysStep, updateAt]
    cases hw : dlookup s.cache k with
    | some w =>
      dsimp only
      exact dinsert_existing_cacheOK hc hw (model_unload_fields w mem).2.2.2.1
    | none => exact hc

theorem runOps_cacheOK {E : Key → String} (s : Mgr) (ops : List SysOp)
    (hc : CacheOK E s.cache) (hops : ∀ op ∈ ops, OpOK E op) :
    CacheOK E (runOps s ops).cache := by
  induction ops generalizing s with
  | nil => exact hc
  | cons op ops ih =>
    rw [runOps]
    exact ih (sysStep s op)
      (sysStep_cacheOK s op hc (hops op (List.mem_cons_self op ops)))
      fun o ho => hops o (List.mem_cons_of_mem op ho)

/-- C3 amended: the two namespaces are disjoint for every key that is not
itself a shadow key, provided `load_model` is only ever called on
unshadowed keys, each with its one fixed engine assignment `E` — in every
state reachable from process start (with or without the ComfyUI
integration) by any operation sequence.  The unrestricted claim is false
(see the counterexample): `clear_cache` re-removes shadow entries,
spilling them to doubly shadowed keys, which puts a shadow key in both
namespaces at once. -/
theorem C3_disjointness_amended (E : Key → String) (b : Bool)
    (ops : List SysOp) (hops : ∀ op ∈ ops, OpOK E op) (k : Key)
    (hk : isShadowKey k = false) :
    ¬ ((dlookup (runOps (initMgr b) ops).cache k).isSome ∧
       (dlookup (runOps (initMgr b) ops).cache (shadowKey k)).isSome) := by
  have hinit : CacheOK E (initMgr b).cache := by
    constructor
    · intro p hp
      cases hp
    · intro x hx hcon
      obtain ⟨ha, _⟩ := hcon
      cases ha
  exact (runOps_cacheOK (initMgr b) ops hinit hops).2 k hk

/-- C3 witness: the amended statement applied to the engine assignment that
sends every key to `"higgs_audio"`, the five-operation trace of the
counterexample, and the unshadowed key `"a"` — whose two namespaces indeed
stay disjoint even in `state5`. -/
theorem C3_disjointness_amended_witness :
    ((∀ op ∈ trace5, OpOK (fun _ => "higgs_audio") op) ∧
      isShadowKey keyA = false) ∧
    ¬ ((dlookup (runOps (initMgr false) trace5).cache keyA).isSome ∧
       (dlookup (runOps (initMgr false) trace5).cache (shadowKey keyA)).isSome) := by
  have hops : ∀ op ∈ trace5, OpOK (fun _ => "higgs_audio") op := by
    intro op hop
    simp only [trace5, loadA, List.mem_cons] at hop
    rcases hop with h | h | h | h | h | h
    · rw [h]
      exact ⟨by decide, rfl⟩
    · rw [h]
      exact trivial
    · rw [h]
      exact trivial
    · rw [h]
      exact ⟨by decide, rfl⟩
    · rw [h]
      exact trivial
    · cases h
  exact ⟨⟨hops, by decide⟩,
    C3_disjointness_amended (fun _ => "higgs_audio") false trace5 hops keyA
      (by decide)⟩
